import Mathlib

/-!
Verification of the quantum measurement-encoding engine of the
Quantum-Battleship repository (src/app.py and src/war_room.py; the engine
functions are textually identical in the two files).

The engine code builds gate-level circuits (`run_quantum_sonar_ping`,
`iqft_gate`, `run_quantum_counting_scan`) and hands them to an external
execution backend (qiskit AerSimulator, out of scope per the design spec).
We embed the circuit constructions faithfully as Lean functions producing
gate lists, and model the backend from the spec's contract (standard
unitary semantics, one shot, deterministic outcome when it has
probability 1) as an exact state-vector evaluator over the ring ℤ[ζ₈] of
eighth-cyclotomic integers: every phase angle appearing in the executed
circuits is an integer multiple of π/4, so phase factors are powers of
ζ₈, and the Hadamard normalisation 1/√2 is handled by tracking the state
up to a positive real global factor (we apply √2·H, i.e. the tracked
vector is (√2)^h times the physical one after h Hadamard gates).  All
observable properties used below — which basis states carry nonzero
amplitude, hence which single-shot outcomes have probability 1 — are
invariant under positive global scaling, so this is an exact model.

Angles are represented exactly: the circuits only ever construct angles
of the form n·π/2^k (the source stores them as floats built from
`np.pi`); we store the pair (n, k).
-/

namespace QB

/-- An element of ℤ[ζ₈], written `c0 + c1·ζ + c2·ζ² + c3·ζ³` with
`ζ = e^{iπ/4}`, so `ζ⁴ = -1`, `ζ² = i` and `√2 = ζ - ζ³`.  Scaled
amplitudes of every circuit in this repository live in this ring. -/
structure Zeta8 where
  c0 : Int
  c1 : Int
  c2 : Int
  c3 : Int
deriving DecidableEq, Repr

instance : Zero Zeta8 := ⟨⟨0, 0, 0, 0⟩⟩

instance : One Zeta8 := ⟨⟨1, 0, 0, 0⟩⟩

instance : Add Zeta8 :=
  ⟨fun x y => ⟨x.c0 + y.c0, x.c1 + y.c1, x.c2 + y.c2, x.c3 + y.c3⟩⟩

instance : Neg Zeta8 := ⟨fun x => ⟨-x.c0, -x.c1, -x.c2, -x.c3⟩⟩

/-- Multiplication in ℤ[ζ₈]: convolution of coefficients reduced by
`ζ⁴ = -1`. -/
instance : Mul Zeta8 :=
  ⟨fun x y =>
    ⟨x.c0 * y.c0 - x.c1 * y.c3 - x.c2 * y.c2 - x.c3 * y.c1,
     x.c0 * y.c1 + x.c1 * y.c0 - x.c2 * y.c3 - x.c3 * y.c2,
     x.c0 * y.c2 + x.c1 * y.c1 + x.c2 * y.c0 - x.c3 * y.c3,
     x.c0 * y.c3 + x.c1 * y.c2 + x.c2 * y.c1 + x.c3 * y.c0⟩⟩

/-- `ζ^k` for `k` in `0..7`, tabulated. -/
def zetaPow (k : Nat) : Zeta8 :=
  match k % 8 with
  | 0 => ⟨1, 0, 0, 0⟩
  | 1 => ⟨0, 1, 0, 0⟩
  | 2 => ⟨0, 0, 1, 0⟩
  | 3 => ⟨0, 0, 0, 1⟩
  | 4 => ⟨-1, 0, 0, 0⟩
  | 5 => ⟨0, -1, 0, 0⟩
  | 6 => ⟨0, 0, -1, 0⟩
  | _ => ⟨0, 0, 0, -1⟩

/-- `ζ^z` for an integer exponent. -/
def zetaZPow (z : Int) : Zeta8 := zetaPow (z % 8).toNat

/-- `√2 = ζ - ζ³`.  Applying `√2·H` instead of `H` keeps amplitudes in
ℤ[ζ₈]; the tracked state is then a positive real multiple of the
physical state, which leaves supports and forced outcomes unchanged. -/
def sqrt2 : Zeta8 := ⟨0, 1, 0, -1⟩

/-- A gate angle, exactly `n·π / 2^k` radians.  Every angle the source
constructs has this form: `iqft_gate` uses `-np.pi / 2**(j-i)` and the
counting scan uses `(2**power) * (np.pi/4)`. -/
structure PiFrac where
  n : Int
  k : Nat
deriving DecidableEq, Repr

/-- The phase factor `e^{i·(n·π/2^k)}` of a controlled-phase gate, as an
element of ℤ[ζ₈].  It lies in the ring exactly when `2^k` divides `4·n`
(angle an integer multiple of π/4) — true for every angle executed in
this repository; on other angles we return `1` (never hit below). -/
def phaseOf (a : PiFrac) : Zeta8 :=
  if (4 * a.n) % (2 ^ a.k : Int) = 0 then zetaZPow ((4 * a.n) / (2 ^ a.k))
  else 1

/-- Gate operations: the tagged-variant gate set of the spec's Circuit
Model plus the `barrier` pseudo-operation the source inserts (a no-op for
execution).  `cphase` stores the angle exactly. -/
inductive Gate where
  | hadamard (q : Nat)
  | pauliX (q : Nat)
  | cnot (c t : Nat)
  | cphase (angle : PiFrac) (c t : Nat)
  | swapg (a b : Nat)
  | measureg (q bit : Nat)
  | barrier
deriving DecidableEq, Repr

/-- Bit `q` of the basis-state index `x` (the value of qubit `q` in the
computational basis state numbered `x`; qubit 0 is the least significant
bit, the qiskit convention). -/
def bitOf (x q : Nat) : Bool := x / 2 ^ q % 2 = 1

/-- `x` with qubit `q` forced to 1. -/
def setBit (x q : Nat) : Nat := if bitOf x q then x else x + 2 ^ q

/-- `x` with qubit `q` forced to 0. -/
def clearBit (x q : Nat) : Nat := if bitOf x q then x - 2 ^ q else x

/-- `x` with qubit `q` flipped. -/
def flipBit (x q : Nat) : Nat := if bitOf x q then x - 2 ^ q else x + 2 ^ q

/-- `x` with the values of qubits `a` and `b` exchanged. -/
def swapBits (x a b : Nat) : Nat :=
  if bitOf x a = bitOf x b then x else flipBit (flipBit x a) b

/-- A state vector over `d` qubits stored as a complete binary tree of
depth `d` (basis state `x` at the leaf reached by following bit
`d - 1`, …, bit 0 of `x` from the root), so that amplitude lookup is
logarithmic in the dimension. -/
inductive QTree where
  | leaf (a : Zeta8)
  | node (l r : QTree)
deriving DecidableEq, Repr

/-- Amplitude of basis state `x` in a depth-`d` state tree. -/
def QTree.get : Nat → QTree → Nat → Zeta8
  | 0, .leaf a, _ => a
  | d + 1, .node l r, x =>
      if bitOf x d then QTree.get d r x else QTree.get d l x
  | _, _, _ => 0

/-- The depth-`d` state tree tabulating `f` on `[base, base + 2^d)`. -/
def QTree.build (f : Nat → Zeta8) : Nat → Nat → QTree
  | 0, base => .leaf (f base)
  | d + 1, base =>
      .node (QTree.build f d base) (QTree.build f d (base + 2 ^ d))

/-- Amplitude of basis state `x` in a state over `n` qubits. -/
def amp (n : Nat) (st : QTree) (x : Nat) : Zeta8 := QTree.get n st x

/-- Modelled from the spec: tabulated (one amplitude formula per basis
state) standard unitary semantics of each gate; the readable reference
form of the evaluator.  The Hadamard is applied scaled by √2 (see the
header comment).  `measureg` and `barrier` do not change the
pre-measurement state (all measurements in this system are terminal). -/
def applyGateTab (n : Nat) (st : QTree) : Gate → QTree
  | .hadamard q =>
      QTree.build (fun x =>
        amp n st (clearBit x q) +
          (if bitOf x q then -amp n st (setBit x q)
           else amp n st (setBit x q))) n 0
  | .pauliX q => QTree.build (fun x => amp n st (flipBit x q)) n 0
  | .cnot c t =>
      QTree.build (fun x =>
        amp n st (if bitOf x c then flipBit x t else x)) n 0
  | .cphase a c t =>
      QTree.build (fun x =>
        if bitOf x c && bitOf x t then phaseOf a * amp n st x
        else amp n st x) n 0
  | .swapg a b => QTree.build (fun x => amp n st (swapBits x a b)) n 0
  | .measureg _ _ => st
  | .barrier => st

/-- Apply `f` to every amplitude. -/
def QTree.mapLeaf (f : Zeta8 → Zeta8) : QTree → QTree
  | .leaf a => .leaf (f a)
  | .node l r => .node (mapLeaf f l) (mapLeaf f r)

/-- Combine two equal-shape state trees leafwise (first tree on shape
mismatch, which never occurs on equal-depth states). -/
def QTree.zipWith (f : Zeta8 → Zeta8 → Zeta8) : QTree → QTree → QTree
  | .leaf a, .leaf b => .leaf (f a b)
  | .node l1 r1, .node l2 r2 => .node (zipWith f l1 l2) (zipWith f r1 r2)
  | t, _ => t

/-- Scaled Hadamard on qubit `q` of a depth-`d` state: at the tree level
splitting on bit `q`, the two halves `(l, r)` become `(l + r, l - r)`. -/
def QTree.hGate : Nat → Nat → QTree → QTree
  | d + 1, q, .node l r =>
      if d = q then
        .node (QTree.zipWith (fun a b => a + b) l r)
          (QTree.zipWith (fun a b => a + -b) l r)
      else .node (hGate d q l) (hGate d q r)
  | _, _, t => t

/-- Pauli X on qubit `q`: exchange the two halves at bit `q`. -/
def QTree.xGate : Nat → Nat → QTree → QTree
  | d + 1, q, .node l r =>
      if d = q then .node r l else .node (xGate d q l) (xGate d q r)
  | _, _, t => t

/-- Multiply by `ph` every amplitude of a basis state in which all the
qubits listed in `qs` are 1. -/
def QTree.phaseOn (ph : Zeta8) : List Nat → Nat → QTree → QTree
  | [], _, t => t.mapLeaf (fun a => ph * a)
  | qs, d + 1, .node l r =>
      if qs.contains d then
        .node l (phaseOn ph (qs.filter fun x => x ≠ d) d r)
      else .node (phaseOn ph qs d l) (phaseOn ph qs d r)
  | _, _, t => t

/-- `sel c d a b`: the depth-`d` state taking the amplitudes of `b` on
basis states with bit `c` set and those of `a` elsewhere. -/
def QTree.sel : Nat → Nat → QTree → QTree → QTree
  | c, d + 1, .node la ra, .node lb rb =>
      if d = c then .node la rb
      else .node (sel c d la lb) (sel c d ra rb)
  | _, _, a, _ => a

/-- Controlled NOT with control `c` and target `t` on a depth-`d` state.
Descending from the most significant bit, the higher of `c`, `t` is
reached first: if it is `c`, apply X on `t` inside the control-1 half;
if it is `t`, exchange across the `t` split exactly the amplitudes whose
bit `c` is set. -/
def QTree.cxGate : Nat → Nat → Nat → QTree → QTree
  | d + 1, c, t, .node l r =>
      if d = c then .node l (QTree.xGate d t r)
      else if d = t then .node (QTree.sel c d l r) (QTree.sel c d r l)
      else .node (cxGate d c t l) (cxGate d c t r)
  | _, _, _, t => t

/-- Descend equal-shape halves `l`, `r` (the two sides of the higher
swapped bit) to the level of the lower swapped bit `low` and exchange
`l`'s bit-`low`-set part with `r`'s bit-`low`-clear part. -/
def QTree.swapParts : Nat → Nat → QTree → QTree → QTree × QTree
  | low, d + 1, .node ll lr, .node rl rr =>
      if d = low then (.node ll rl, .node lr rr)
      else
        let p1 := swapParts low d ll rl
        let p2 := swapParts low d lr rr
        (.node p1.1 p2.1, .node p1.2 p2.2)
  | _, _, a, b => (a, b)

/-- SWAP of qubits `a` and `b` on a depth-`d` state.  The higher of the
two bits is reached first while descending; the amplitudes of basis
states whose bits `a`, `b` differ are exchanged. -/
def QTree.swapGate : Nat → Nat → Nat → QTree → QTree
  | d + 1, a, b, .node l r =>
      if d = a then
        let p := QTree.swapParts b d l r
        .node p.1 p.2
      else if d = b then
        let p := QTree.swapParts a d l r
        .node p.1 p.2
      else .node (swapGate d a b l) (swapGate d a b r)
  | _, _, _, t => t

/-- Modelled from the spec: the Execution Backend (an external
collaborator, spec section 6, realised by qiskit's AerSimulator which is
not part of this repository) applies each gate with its standard unitary
semantics to the state vector, here in the structural form above (proved
below, in `applyGate_agrees_ping`, `applyGate_agrees_iqft3` and
`applyGate_agrees_scan`, to agree with the tabulated reference
`applyGateTab` on the circuits this repository executes). -/
def applyGate (n : Nat) (st : QTree) : Gate → QTree
  | .hadamard q => QTree.hGate n q st
  | .pauliX q => QTree.xGate n q st
  | .cnot c t => QTree.cxGate n c t st
  | .cphase a c t => QTree.phaseOn (phaseOf a) [c, t] n st
  | .swapg a b => QTree.swapGate n a b st
  | .measureg _ _ => st
  | .barrier => st

/-- The all-zeros initial state `|0…0⟩`. -/
def initState (n : Nat) : QTree :=
  QTree.build (fun x => if x = 0 then 1 else 0) n 0

/-- Final (scaled) pre-measurement state of a circuit over `n` qubits. -/
def finalState (n : Nat) (gs : List Gate) : QTree :=
  gs.foldl (applyGate n) (initState n)

/-- Final state computed with the tabulated reference evaluator. -/
def finalStateTab (n : Nat) (gs : List Gate) : QTree :=
  gs.foldl (applyGateTab n) (initState n)

/-- Basis states carrying nonzero amplitude. -/
def support (n : Nat) (st : QTree) : List Nat :=
  (List.range (2 ^ n)).filter fun x => amp n st x ≠ 0

/-- Modelled from the spec: a single shot of the backend yields a
definite value for qubit `q` exactly when every basis state in the
state's support agrees on that qubit (the outcome then has probability
1, matching the spec's deterministic single-shot contract); otherwise the
sampled value is not determined and we return `none`. -/
def forcedBit (n : Nat) (st : QTree) (q : Nat) : Option Bool :=
  match support n st with
  | [] => none
  | x :: xs =>
      if xs.all fun y => bitOf y q = bitOf x q then some (bitOf x q)
      else none

/-- The (qubit, classical bit) pairs measured by a circuit. -/
def measuresOf (gs : List Gate) : List (Nat × Nat) :=
  gs.filterMap fun g =>
    match g with
    | .measureg q b => some (q, b)
    | _ => none

/-- Modelled from the spec: the backend's single-shot result as the list
of classical-bit values indexed 0, 1, …, `m - 1`, defined when every
measured qubit has a forced value. -/
def clbitValues (n m : Nat) (gs : List Gate) : Option (List Bool) :=
  let st := finalState n gs
  (List.range m).mapM fun b => do
    let p ← (measuresOf gs).find? fun p => p.2 = b
    forcedBit n st p.1

/-- Modelled from the spec: the key of qiskit's `get_counts` dictionary
as a list of bits — classical bit `m - 1` first, classical bit 0 last
(qiskit prints the classical register most-significant-bit first, which
is the convention the source's decode step inverts). -/
def countsKey (n m : Nat) (gs : List Gate) : Option (List Bool) :=
  (clbitValues n m gs).map List.reverse

/-- `int(s, 2)`: a bit list read most-significant-bit first as a natural
number. -/
def bitsToNat (l : List Bool) : Nat :=
  l.foldl (fun a b => 2 * a + if b then 1 else 0) 0

/-- The counting-scan decode step (src/app.py line 137):
`int(binary_count[::-1], 2)` — reverse the bit order of the returned
string, then read the reversed string as an unsigned binary integer. -/
def decode_binary_count (binary_count : List Bool) : Nat :=
  bitsToNat binary_count.reverse

/-!  The Sonar Ping Engine, `run_quantum_sonar_ping` (src/app.py lines
25-49, src/war_room.py lines 11-35).  -/

/-- The gate sequence `run_quantum_sonar_ping` appends to its fresh
2-qubit, 1-bit circuit: optional X on the target qubit, then H(probe),
H(target), CX(probe, target), H(target), H(probe), then a measurement of
the probe qubit into classical bit 0 (src/app.py lines 29-41). -/
def run_quantum_sonar_ping_gates (target_is_ship : Bool) : List Gate :=
  (if target_is_ship then [Gate.pauliX 1] else []) ++
  [Gate.barrier, Gate.hadamard 0, Gate.hadamard 1, Gate.cnot 0 1,
   Gate.hadamard 1, Gate.hadamard 0, Gate.barrier, Gate.measureg 0 0]

/-- `run_quantum_sonar_ping`: build the ping circuit, execute it for one
shot, parse the single-character counts key as the outcome integer, and
return it together with the circuit handed to the backend (the source
returns `transpiled_qc`; transpilation is backend-side compilation out of
scope per the spec and is modelled as the identity on the circuit). -/
def run_quantum_sonar_ping (target_is_ship : Bool) :
    Option (Nat × List Gate) := do
  let gs := run_quantum_sonar_ping_gates target_is_ship
  let key ← countsKey 2 1 gs
  pure (bitsToNat key, gs)

/-!  The Inverse Fourier Sub-circuit Builder, `swap_qubits` and
`iqft_gate` (src/app.py lines 52-73, src/war_room.py lines 38-59).  -/

/-- `swap_qubits(qc, n)` (src/app.py lines 52-56): appends SWAP gates
pairing qubit `i` with qubit `n - i - 1` for `i` in `range(n // 2)`. -/
def swap_qubits (n : Nat) : List Gate :=
  (List.range (n / 2)).map fun i => Gate.swapg i (n - i - 1)

/-- `iqft_gate(n_qubits)` (src/app.py lines 58-73): a fresh `n`-qubit
circuit; first `swap_qubits`, then for `i` in `reversed(range(n))`: for
`j` in `reversed(range(i+1, n))` a controlled-phase of angle
`-π / 2^(j-i)` with control `j` and target `i`, then a Hadamard on `i`. -/
def iqft_gate (n_qubits : Nat) : List Gate :=
  swap_qubits n_qubits ++
  (List.range n_qubits).reverse.flatMap fun i =>
    ((List.range' (i + 1) (n_qubits - (i + 1))).reverse.map fun j =>
      Gate.cphase ⟨-1, j - i⟩ j i) ++ [Gate.hadamard i]

/-!  The Counting Scan Engine, `run_quantum_counting_scan`
(src/app.py lines 77-139, src/war_room.py lines 63-125).  -/

def n_counting_qubits : Nat := 3

def n_target_qubits : Nat := 4

/-- `counting_register = list(range(3)) = [0, 1, 2]`. -/
def counting_register : List Nat := List.range n_counting_qubits

/-- `target_register = list(range(3, 7)) = [3, 4, 5, 6]`. -/
def target_register : List Nat :=
  List.range' n_counting_qubits n_target_qubits

/-- `ship_indices = [target_register[i] for i, is_ship in
enumerate(targets) if is_ship]` (src/app.py line 98).  The Python
subscript raises IndexError when a true entry sits at position ≥ 4, which
we model with `Option`. -/
def ship_indices (targets : List Bool) : Option (List Nat) :=
  (targets.enum.filter fun p => p.2).mapM fun p => target_register.get? p.1

/-- `base_phase = np.pi / 4` (src/app.py line 106). -/
def base_phase : PiFrac := ⟨1, 2⟩

/-- `(2**power) * base_phase`: integer scaling of an exact angle. -/
def PiFrac.intMul (m : Int) (a : PiFrac) : PiFrac := ⟨m * a.n, a.k⟩

/-- The controlled-phase rotations of step 3 (src/app.py lines 108-116):
for each counting qubit `c_idx`, `power = n_counting_qubits - 1 - c_idx`,
`angle = (2**power) * base_phase`, and one `cp(angle, c_idx, t_idx)` per
marked target qubit `t_idx` in `ship_indices`. -/
def kickback_gates (ships : List Nat) : List Gate :=
  counting_register.flatMap fun c =>
    ships.map fun t =>
      Gate.cphase (PiFrac.intMul (2 ^ (n_counting_qubits - 1 - c))
        base_phase) c t

/-- Qubit remapping through a mapping list (sub-circuit index `q` goes to
the host index stored at position `q`). -/
def remapQubit (m : List Nat) (q : Nat) : Nat := m.getD q q

/-- A gate with its qubit indices remapped through a mapping list. -/
def remapGate (m : List Nat) : Gate → Gate
  | .hadamard q => .hadamard (remapQubit m q)
  | .pauliX q => .pauliX (remapQubit m q)
  | .cnot c t => .cnot (remapQubit m c) (remapQubit m t)
  | .cphase a c t => .cphase a (remapQubit m c) (remapQubit m t)
  | .swapg a b => .swapg (remapQubit m a) (remapQubit m b)
  | .measureg q b => .measureg (remapQubit m q) b
  | .barrier => .barrier

/-- `qc.append(sub, mapping)`: inline a sub-circuit's operations at the
end of the host circuit, remapping its qubit indices (spec section 4.1,
used at src/app.py line 121 with the identity mapping `[0, 1, 2]`). -/
def appendSub (host sub : List Gate) (m : List Nat) : List Gate :=
  host ++ sub.map (remapGate m)

/-- The full gate sequence `run_quantum_counting_scan` builds
(src/app.py lines 95-126): X on each marked target qubit, Hadamard on the
counting register, the phase-kickback rotations, a barrier, the inlined
`iqft_gate(3)` over the counting register, a barrier, and measurement of
counting qubit `q` into classical bit `q` for `q = 0, 1, 2`. -/
def run_quantum_counting_scan_gates (targets : List Bool) :
    Option (List Gate) := do
  let ships ← ship_indices targets
  let qc1 := ships.map Gate.pauliX ++ counting_register.map Gate.hadamard
  let qc2 := qc1 ++ kickback_gates ships ++ [Gate.barrier]
  let qc3 := appendSub qc2 (iqft_gate n_counting_qubits) counting_register
  pure (qc3 ++ [Gate.barrier] ++
    counting_register.map fun q => Gate.measureg q q)

/-- `run_quantum_counting_scan`: build the 7-qubit, 3-bit counting
circuit, execute one shot, take the counts key `binary_count`, and decode
`integer_count = int(binary_count[::-1], 2)` (src/app.py lines 135-137);
returns the pair `(integer_count, transpiled_qc)` with transpilation
modelled as the identity (backend-side compilation, out of scope per the
spec). -/
def run_quantum_counting_scan (targets : List Bool) :
    Option (Nat × List Gate) := do
  let gs ← run_quantum_counting_scan_gates targets
  let binary_count ←
    countsKey (n_counting_qubits + n_target_qubits) n_counting_qubits gs
  let integer_count := decode_binary_count binary_count
  pure (integer_count, gs)

/-!  Auxiliary definitions used only to state and settle claims.  -/

/-- Is the gate a Swap? -/
def isSwap : Gate → Bool
  | .swapg _ _ => true
  | _ => false

/-- Is the gate a ControlledPhase? -/
def isCP : Gate → Bool
  | .cphase _ _ _ => true
  | _ => false

/-- Is the gate a Hadamard? -/
def isH : Gate → Bool
  | .hadamard _ => true
  | _ => false

/-- Is the gate a measurement? -/
def isMeasure : Gate → Bool
  | .measureg _ _ => true
  | _ => false

/-- Written from the spec's words (section 4.2 step 2, inner loop), for
comparison with the source-derived `iqft_gate`: the ControlledPhase
gates of row `i`, "for each j counting down from n−1 to i+1 … control j,
target i, and angle = −π / 2^(j−i)", by downward recursion on
`m = j - i` (so `rowCps i m` lists the gates for `j = i + m` down to
`j = i + 1`). -/
def rowCps (i : Nat) : Nat → List Gate
  | 0 => []
  | m + 1 => Gate.cphase ⟨-1, m + 1⟩ (i + m + 1) i :: rowCps i m

/-- Written from the spec's words (section 4.2 step 2): row `i` is its
ControlledPhase gates followed by a Hadamard on qubit `i`. -/
def iqftRowSpec (n i : Nat) : List Gate :=
  rowCps i (n - 1 - i) ++ [Gate.hadamard i]

/-- Written from the spec's words (section 4.2 step 2, outer loop): the
rows "for i counting down from n−1 to 0", by downward recursion
(`ladderSpec n k` lists rows `k - 1` down to `0`). -/
def ladderSpec (n : Nat) : Nat → List Gate
  | 0 => []
  | k + 1 => iqftRowSpec n k ++ ladderSpec n k

/-- Written from the spec's words (section 4.2): first the Swap
operations "pairing qubit i with qubit (n−1−i) for i in [0, n/2)
(integer division)", then the double loop of rows. -/
def iqftSpec (n : Nat) : List Gate :=
  ((List.range (n / 2)).map fun i => Gate.swapg i (n - 1 - i)) ++
    ladderSpec n n

/-- Written from the spec's words (section 4.4 step 3), for comparison
with the source-derived kickback segment: for each counting qubit `c` in
`[0, 1, 2]`, one ControlledPhase of angle `(2^(2−c))·(π/4)` with control
`c` onto target-register qubit `3 + i` for each marked index `i`, and
none for unmarked indices. -/
def kickbackSpecOf (targets : List Bool) : List Gate :=
  [0, 1, 2].flatMap fun c =>
    (List.range 4).filterMap fun i =>
      if targets.getD i false then
        some (Gate.cphase ⟨2 ^ (2 - c), 2⟩ c (3 + i))
      else none

/-- Boolean check that a gate is a legitimate kickback gate for the given
targets: a ControlledPhase with counting-register control `c < 3`, angle
exactly `(2^(2−c))·(π/4)`, and target a marked target-register qubit
(never an unmarked one). -/
def goodKickbackGate (targets : List Bool) : Gate → Bool
  | .cphase a c t =>
      decide (c < 3) && decide (3 ≤ t) && decide (t < 7) &&
        targets.getD (t - 3) false && decide (a = ⟨2 ^ (2 - c), 2⟩)
  | _ => false

/-- All bit lists of length `k`, in lexicographic order with the last
position varying slowest. -/
def allBitLists : Nat → List (List Bool)
  | 0 => [[]]
  | k + 1 => (allBitLists k).flatMap fun l => [false :: l, true :: l]

/-!  Helper lemmas.  -/

/-- A list of length 4 is a four-element literal. -/
theorem list_len4 {α : Type} {l : List α} (h : l.length = 4) :
    ∃ a b c d, l = [a, b, c, d] := by
  rcases l with _ | ⟨a, _ | ⟨b, _ | ⟨c, _ | ⟨d, _ | ⟨e, t⟩⟩⟩⟩⟩ <;>
    simp only [List.length_cons, List.length_nil] at h <;>
    first
    | omega
    | exact ⟨_, _, _, _, rfl⟩

/-- A list of length at most 3 is one of the four short shapes. -/
theorem list_len_le3 {α : Type} {l : List α} (h : l.length ≤ 3) :
    l = [] ∨ (∃ a, l = [a]) ∨ (∃ a b, l = [a, b]) ∨
      ∃ a b c, l = [a, b, c] := by
  rcases l with _ | ⟨a, _ | ⟨b, _ | ⟨c, _ | ⟨d, t⟩⟩⟩⟩ <;>
    simp only [List.length_cons, List.length_nil] at h <;>
    first
    | omega
    | simp

/-- A list of length 5 is a five-element literal. -/
theorem list_len5 {α : Type} {l : List α} (h : l.length = 5) :
    ∃ a b c d e, l = [a, b, c, d, e] := by
  rcases l with _ | ⟨a, _ | ⟨b, _ | ⟨c, _ | ⟨d, _ | ⟨e, _ | ⟨f, t⟩⟩⟩⟩⟩⟩ <;>
    simp only [List.length_cons, List.length_nil] at h <;>
    first
    | omega
    | exact ⟨_, _, _, _, _, rfl⟩

/-- Exhaustive evaluation of the sonar ping on both inputs: the modelled
backend run is forced (probability-1 outcome) and yields 0 for a clear
square and 1 for a ship. -/
theorem ping_eval (t : Bool) :
    run_quantum_sonar_ping t =
      some (cond t 1 0, run_quantum_sonar_ping_gates t) := by
  cases t <;> decide

set_option maxRecDepth 1000000 in
set_option maxHeartbeats 12000000 in
/-- Exhaustive evaluation of the counting scan on all sixteen 4-element
inputs: the circuit build succeeds, the modelled backend outcome is
forced, and the decoded integer equals the number of true entries. -/
theorem scan_eval (a b c d : Bool) :
    ∃ gs, run_quantum_counting_scan_gates [a, b, c, d] = some gs ∧
      run_quantum_counting_scan [a, b, c, d] =
        some ([a, b, c, d].count true, gs) := by
  cases a <;> cases b <;> cases c <;> cases d <;>
    exact ⟨_, rfl, by decide⟩

/-!  Claims.  -/

/-- C2: for every boolean `t`, the sonar ping deterministically returns
the bit 0 when `t` is false and the bit 1 when `t` is true, on every
invocation — the modelled single-shot outcome is forced (probability 1),
not merely likely. -/
theorem sonar_ping_deterministic (t : Bool) :
    (run_quantum_sonar_ping t).map Prod.fst = some (cond t 1 0) := by
  rw [ping_eval]; rfl

/-- C1: for every input list of exactly 4 booleans, the counting scan
returns the number of true entries, and that number is at most 4 (hence
in [0, 4]). -/
theorem counting_scan_counts_marked (ts : List Bool)
    (h : ts.length = 4) :
    (run_quantum_counting_scan ts).map Prod.fst = some (ts.count true) ∧
      ts.count true ≤ 4 := by
  obtain ⟨a, b, c, d, rfl⟩ := list_len4 h
  obtain ⟨gs, hg, hs⟩ := scan_eval a b c d
  refine ⟨by rw [hs]; rfl, ?_⟩
  cases a <;> cases b <;> cases c <;> cases d <;> decide

/-- Witness for C1 at the concrete input `[false, true, false, true]`
(count 2). -/
theorem counting_scan_counts_marked_witness :
    (run_quantum_counting_scan [false, true, false, true]).map Prod.fst =
        some ([false, true, false, true].count true) ∧
      [false, true, false, true].count true ≤ 4 :=
  counting_scan_counts_marked [false, true, false, true] (by decide)

/-- C8: both engines are pure functions of their argument in this
embedding (the source reads no state that persists across calls), so two
invocations with equal arguments return equal results; moreover, on the
in-contract inputs, the single-shot outcome is forced, so not even the
backend's sampling can make two runs differ. -/
theorem engines_stateless :
    (∀ t : Bool, run_quantum_sonar_ping t = run_quantum_sonar_ping t ∧
      ∃ r, run_quantum_sonar_ping t = some r) ∧
    ∀ ts : List Bool, ts.length = 4 →
      run_quantum_counting_scan ts = run_quantum_counting_scan ts ∧
        ∃ r, run_quantum_counting_scan ts = some r := by
  refine ⟨fun t => ⟨rfl, ⟨_, ping_eval t⟩⟩, fun ts h => ⟨rfl, ?_⟩⟩
  obtain ⟨a, b, c, d, rfl⟩ := list_len4 h
  obtain ⟨gs, hg, hs⟩ := scan_eval a b c d
  exact ⟨_, hs⟩

/-- Witness for C8 at the concrete input `[true, true, false, false]`. -/
theorem engines_stateless_witness :
    run_quantum_counting_scan [true, true, false, false] =
        run_quantum_counting_scan [true, true, false, false] ∧
      ∃ r, run_quantum_counting_scan [true, true, false, false] = some r :=
  engines_stateless.2 [true, true, false, false] (by decide)

/-- C9: both engine entry points return a 2-tuple, not a bare value —
the ping returns (measurement bit, circuit) and the scan returns
(integer count, circuit) — and the game-facing outcome is the first
component. -/
theorem engines_return_pairs :
    (∀ t : Bool, ∃ p : Nat × List Gate,
      run_quantum_sonar_ping t = some p ∧ p.1 = cond t 1 0 ∧
        p.2 = run_quantum_sonar_ping_gates t) ∧
    ∀ ts : List Bool, ts.length = 4 → ∃ p : Nat × List Gate,
      run_quantum_counting_scan ts = some p ∧ p.1 = ts.count true ∧
        run_quantum_counting_scan_gates ts = some p.2 := by
  refine ⟨fun t => ⟨_, ping_eval t, rfl, rfl⟩, fun ts h => ?_⟩
  obtain ⟨a, b, c, d, rfl⟩ := list_len4 h
  obtain ⟨gs, hg, hs⟩ := scan_eval a b c d
  exact ⟨_, hs, rfl, hg⟩

/-- Witness for C9 at the concrete input `[true, false, false, true]`. -/
theorem engines_return_pairs_witness :
    ∃ p : Nat × List Gate,
      run_quantum_counting_scan [true, false, false, true] = some p ∧
        p.1 = [true, false, false, true].count true ∧
        run_quantum_counting_scan_gates [true, false, false, true] =
          some p.2 :=
  engines_return_pairs.2 [true, false, false, true] (by decide)

set_option maxRecDepth 1000000 in
set_option maxHeartbeats 12000000 in
/-- C3 counterexample: the empty target list has length ≠ 4, yet the
counting scan does not fail — it runs the circuit and returns the count
0.  There is no arity check (and no `InvalidTargetCount`) anywhere in
`run_quantum_counting_scan`. -/
theorem counting_scan_accepts_empty :
    ([] : List Bool).length ≠ 4 ∧
      run_quantum_counting_scan [] ≠ none ∧
      (run_quantum_counting_scan []).map Prod.fst = some 0 := by
  decide

set_option maxRecDepth 1000000 in
set_option maxHeartbeats 40000000 in
/-- C3 amended: the counting scan performs no arity validation.  An
input of length at most 3 is processed normally and yields the number of
its true entries; an input of length 5 is processed normally (counting
the true entries among its first 4 positions) when its fifth entry is
false, and fails — with a Python IndexError from
`target_register[i]`, not with `InvalidTargetCount` — exactly when its
fifth entry is true. -/
theorem counting_scan_no_arity_check :
    (∀ ts : List Bool, ts.length ≤ 3 →
      (run_quantum_counting_scan ts).map Prod.fst =
        some (ts.count true)) ∧
    ∀ ts : List Bool, ts.length = 5 →
      (ts.getD 4 false = false →
        (run_quantum_counting_scan ts).map Prod.fst =
          some ((ts.take 4).count true)) ∧
      (ts.getD 4 false = true → run_quantum_counting_scan ts = none) := by
  constructor
  · intro ts h
    rcases list_len_le3 h with rfl | ⟨a, rfl⟩ | ⟨a, b, rfl⟩ |
      ⟨a, b, c, rfl⟩
    · decide
    · cases a <;> decide
    · cases a <;> cases b <;> decide
    · cases a <;> cases b <;> cases c <;> decide
  · intro ts h
    obtain ⟨a, b, c, d, e, rfl⟩ := list_len5 h
    cases e
    · refine ⟨fun _ => ?_, fun hc => by simp at hc⟩
      cases a <;> cases b <;> cases c <;> cases d <;> decide
    · refine ⟨fun hc => by simp at hc, fun _ => ?_⟩
      cases a <;> cases b <;> cases c <;> cases d <;> decide

/-- Witness for C3's amended statement: a length-1 input yields its true
count, and the length-5 input `[false, false, false, false, true]`
fails. -/
theorem counting_scan_no_arity_check_witness :
    (run_quantum_counting_scan [true]).map Prod.fst = some 1 ∧
      run_quantum_counting_scan [false, false, false, false, true] =
        none :=
  ⟨counting_scan_no_arity_check.1 [true] (by decide),
    (counting_scan_no_arity_check.2 [false, false, false, false, true]
      (by decide)).2 (by decide)⟩

/-- C5: the counting-scan decode step (reverse the 3-bit string, read it
as binary) hits every integer in 0..7 exactly once over the 8 possible
3-bit measurement strings — a bijection. -/
theorem decode_roundtrip_bijective :
    ((allBitLists 3).map decode_binary_count).Perm (List.range 8) := by
  decide

/-- C7: the inverse Fourier sub-circuit builder is referentially
deterministic: two independent invocations with the same `n` produce
structurally identical gate sequences.  (In this embedding the builder
is a pure function — the source allocates a fresh circuit and reads
nothing but `n` and the constant π — so both invocations denote
`iqft_gate n`.) -/
theorem iqft_builder_deterministic (n : Nat) (b1 b2 : List Gate)
    (h1 : b1 = iqft_gate n) (h2 : b2 = iqft_gate n) : b1 = b2 :=
  h1.trans h2.symm

/-- Witness for C7: two builds at `n = 3` coincide. -/
theorem iqft_builder_deterministic_witness :
    iqft_gate 3 = iqft_gate 3 :=
  iqft_builder_deterministic 3 (iqft_gate 3) (iqft_gate 3) rfl rfl

/-- The structural evaluator agrees with the tabulated reference on both
ping circuits. -/
theorem applyGate_agrees_ping (t : Bool) :
    finalState 2 (run_quantum_sonar_ping_gates t) =
      finalStateTab 2 (run_quantum_sonar_ping_gates t) := by
  cases t <;> decide

/-- The structural evaluator agrees with the tabulated reference on the
3-qubit inverse-Fourier circuit. -/
theorem applyGate_agrees_iqft3 :
    finalState 3 (iqft_gate 3) = finalStateTab 3 (iqft_gate 3) := by
  decide

set_option maxRecDepth 1000000 in
set_option maxHeartbeats 40000000 in
/-- The structural evaluator agrees with the tabulated reference on a
full 7-qubit counting-scan circuit. -/
theorem applyGate_agrees_scan :
    (run_quantum_counting_scan_gates [true, false, true, true]).map
        (finalState 7) =
      (run_quantum_counting_scan_gates [true, false, true, true]).map
        (finalStateTab 7) := by
  decide

/-!  Structure of the inverse Fourier builder (C4, C10).  -/

/-- The source's swap loop, rephrased with `n - 1 - i` in place of the
definitionally equal `n - i - 1`. -/
theorem swap_qubits_eq (n : Nat) :
    swap_qubits n =
      (List.range (n / 2)).map fun i => Gate.swapg i (n - 1 - i) := by
  unfold swap_qubits
  apply List.map_congr_left
  intro i _
  have h : n - i - 1 = n - 1 - i := by omega
  rw [h]

/-- The reversed inner loop of `iqft_gate` is the spec's descending
ControlledPhase row. -/
theorem rowCps_eq (k : Nat) : ∀ c,
    (List.range' (k + 1) c).reverse.map
      (fun j => Gate.cphase ⟨-1, j - k⟩ j k) = rowCps k c := by
  intro c
  induction c with
  | zero => rfl
  | succ m ih =>
      rw [List.range'_concat, List.reverse_append]
      simp only [List.reverse_cons, List.reverse_nil, List.nil_append,
        List.singleton_append, List.map_cons, ih]
      have h1 : k + 1 + 1 * m = k + m + 1 := by omega
      rw [h1, (by omega : k + m + 1 - k = m + 1)]
      rfl

/-- The reversed outer loop of `iqft_gate` is the spec's descending
ladder of rows. -/
theorem ladder_eq (n : Nat) : ∀ k, k ≤ n →
    ((List.range k).reverse.flatMap fun i =>
      ((List.range' (i + 1) (n - (i + 1))).reverse.map fun j =>
        Gate.cphase ⟨-1, j - i⟩ j i) ++ [Gate.hadamard i]) =
      ladderSpec n k := by
  intro k
  induction k with
  | zero => intro _; rfl
  | succ m ih =>
      intro h
      rw [List.range_succ, List.reverse_append]
      simp only [List.reverse_cons, List.reverse_nil, List.nil_append,
        List.singleton_append, List.flatMap_cons]
      rw [rowCps_eq m, (by omega : n - (m + 1) = n - 1 - m),
        ih (by omega)]
      simp [ladderSpec, iqftRowSpec, List.append_assoc]

/-- The builder emits exactly the gate sequence the spec prescribes:
swaps first, then the reverse-indexed double loop. -/
theorem iqft_eq_spec (n : Nat) : iqft_gate n = iqftSpec n := by
  unfold iqft_gate iqftSpec
  rw [swap_qubits_eq, ladder_eq n n le_rfl]

/-- Every gate of a ControlledPhase row is a ControlledPhase. -/
theorem rowCps_mem {i : Nat} {g : Gate} : ∀ {c : Nat},
    g ∈ rowCps i c → isCP g = true := by
  intro c h
  induction c with
  | zero => simp [rowCps] at h
  | succ m ih =>
      rcases List.mem_cons.mp h with rfl | h2
      · rfl
      · exact ih h2

/-- Every gate of the ladder is a ControlledPhase or a Hadamard. -/
theorem ladderSpec_mem {n : Nat} {g : Gate} : ∀ {k : Nat},
    g ∈ ladderSpec n k → (isCP g || isH g) = true := by
  intro k h
  induction k with
  | zero => simp [ladderSpec] at h
  | succ m ih =>
      rcases List.mem_append.mp h with h1 | h2
      · rcases List.mem_append.mp h1 with h3 | h4
        · simp [rowCps_mem h3]
        · rcases List.mem_singleton.mp h4 with rfl
          rfl
      · exact ih h2

/-- Every gate of `iqft_gate n` is a Swap, a ControlledPhase or a
Hadamard — in particular the fragment contains no measurement. -/
theorem iqft_gate_kinds {n : Nat} {g : Gate} (h : g ∈ iqft_gate n) :
    (isSwap g || isCP g || isH g) = true := by
  rw [iqft_eq_spec] at h
  rcases List.mem_append.mp h with h1 | h2
  · obtain ⟨i, _, rfl⟩ := List.mem_map.mp h1
    rfl
  · have h3 := ladderSpec_mem h2
    simp only [Bool.or_eq_true] at h3 ⊢
    tauto

/-- A ControlledPhase row of length `c` holds `c` ControlledPhases. -/
theorem rowCps_countP_isCP (i : Nat) : ∀ c,
    (rowCps i c).countP isCP = c := by
  intro c
  induction c with
  | zero => rfl
  | succ m ih => simp [rowCps, List.countP_cons, isCP, ih]

/-- The ladder of `k` rows holds `k` Hadamards. -/
theorem ladder_countP_isH (n : Nat) : ∀ k,
    (ladderSpec n k).countP isH = k := by
  intro k
  induction k with
  | zero => rfl
  | succ m ih =>
      have hrow : (rowCps m (n - 1 - m)).countP isH = 0 := by
        rw [List.countP_eq_zero]
        intro g hg
        have := rowCps_mem hg
        cases g <;> simp_all [isCP, isH]
      simp [ladderSpec, iqftRowSpec, List.countP_append, hrow,
        List.countP_cons, isH, ih]

/-- Twice the number of ControlledPhases in the first `k` rows of the
ladder is `k · (2n − k − 1)` (so the full ladder has `n(n−1)/2`). -/
theorem ladder_countP_isCP (n : Nat) : ∀ k, k ≤ n →
    2 * (ladderSpec n k).countP isCP = k * (2 * n - k - 1) := by
  intro k
  induction k with
  | zero => intro _; simp [ladderSpec]
  | succ m ih =>
      intro h
      have ihm := ih (by omega)
      obtain ⟨a, rfl⟩ : ∃ a, n = a + m + 1 := ⟨n - m - 1, by omega⟩
      have hone : ([Gate.hadamard m] : List Gate).countP isCP = 0 := rfl
      simp only [ladderSpec, iqftRowSpec, List.countP_append,
        rowCps_countP_isCP, hone] at ihm ⊢
      simp only [(by omega : a + m + 1 - 1 - m = a),
        (by omega : 2 * (a + m + 1) - (m + 1) - 1 = 2 * a + m),
        (by omega : 2 * (a + m + 1) - m - 1 = 2 * a + m + 1)] at ihm ⊢
      zify at ihm ⊢
      linear_combination ihm

/-- The ladder contains no Swap. -/
theorem ladder_countP_isSwap (n : Nat) : ∀ k,
    (ladderSpec n k).countP isSwap = 0 := by
  intro k
  rw [List.countP_eq_zero]
  intro g hg
  have := ladderSpec_mem hg
  cases g <;> simp_all [isCP, isH, isSwap]

/-- The swap segment consists of `n / 2` Swaps and nothing else. -/
theorem swapseg_counts (n : Nat) :
    ((List.range (n / 2)).map fun i =>
        Gate.swapg i (n - 1 - i)).countP isSwap = n / 2 ∧
      ((List.range (n / 2)).map fun i =>
        Gate.swapg i (n - 1 - i)).countP isCP = 0 ∧
      ((List.range (n / 2)).map fun i =>
        Gate.swapg i (n - 1 - i)).countP isH = 0 := by
  refine ⟨?_, ?_, ?_⟩
  · have h : ∀ g ∈ (List.range (n / 2)).map fun i =>
        Gate.swapg i (n - 1 - i), isSwap g = true := by
      intro g hg
      obtain ⟨i, _, rfl⟩ := List.mem_map.mp hg
      rfl
    rw [List.countP_eq_length.mpr h, List.length_map, List.length_range]
  · rw [List.countP_eq_zero]
    intro g hg
    obtain ⟨i, _, rfl⟩ := List.mem_map.mp hg
    simp [isCP]
  · rw [List.countP_eq_zero]
    intro g hg
    obtain ⟨i, _, rfl⟩ := List.mem_map.mp hg
    simp [isH]

/-- C4: for every `n ≥ 1`, `iqft_gate n` emits exactly the spec's gate
order — the Swaps pairing qubit `i` with `n−1−i` first, and only then,
for `i` from `n−1` down to `0`, the ControlledPhases with control `j`,
target `i`, angle `−π/2^(j−i)` for `j` from `n−1` down to `i+1` followed
by a Hadamard on `i` — and the fragment contains no measurement. -/
theorem iqft_gate_structure (n : Nat) (h : 1 ≤ n) :
    iqft_gate n = iqftSpec n ∧
      ∀ q b, Gate.measureg q b ∉ iqft_gate n := by
  refine ⟨iqft_eq_spec n, fun q b hm => ?_⟩
  have h2 := iqft_gate_kinds hm
  simp [isSwap, isCP, isH] at h2

/-- Witness for C4 at `n = 3`. -/
theorem iqft_gate_structure_witness :
    iqft_gate 3 = iqftSpec 3 ∧
      ∀ q b, Gate.measureg q b ∉ iqft_gate 3 :=
  iqft_gate_structure 3 (by decide)

/-- C10: for every `n ≥ 1`, `iqft_gate n` holds exactly `n / 2` Swaps,
`n·(n−1)/2` ControlledPhases and `n` Hadamards, and nothing else; in
particular `iqft_gate 1` is a single Hadamard on qubit 0. -/
theorem iqft_gate_gate_counts (n : Nat) (h : 1 ≤ n) :
    (iqft_gate n).countP isSwap = n / 2 ∧
      (iqft_gate n).countP isCP = n * (n - 1) / 2 ∧
      (iqft_gate n).countP isH = n ∧
      (∀ g ∈ iqft_gate n, (isSwap g || isCP g || isH g) = true) ∧
      iqft_gate 1 = [Gate.hadamard 0] := by
  obtain ⟨hsw, hcp, hh⟩ := swapseg_counts n
  refine ⟨?_, ?_, ?_, fun g hg => iqft_gate_kinds hg, rfl⟩
  · rw [iqft_eq_spec]
    unfold iqftSpec
    rw [List.countP_append, hsw, ladder_countP_isSwap]
    omega
  · rw [iqft_eq_spec]
    unfold iqftSpec
    rw [List.countP_append, hcp]
    have h2 := ladder_countP_isCP n n le_rfl
    rw [(by omega : 2 * n - n - 1 = n - 1)] at h2
    generalize hM : n * (n - 1) = M at h2 ⊢
    omega
  · rw [iqft_eq_spec]
    unfold iqftSpec
    rw [List.countP_append, hh, ladder_countP_isH]
    omega

/-- Witness for C10 at `n = 3` (1 Swap, 3 ControlledPhases, 3
Hadamards). -/
theorem iqft_gate_gate_counts_witness :
    (iqft_gate 3).countP isSwap = 3 / 2 ∧
      (iqft_gate 3).countP isCP = 3 * (3 - 1) / 2 ∧
      (iqft_gate 3).countP isH = 3 ∧
      (∀ g ∈ iqft_gate 3, (isSwap g || isCP g || isH g) = true) ∧
      iqft_gate 1 = [Gate.hadamard 0] :=
  iqft_gate_gate_counts 3 (by decide)

/-- C6: for every length-4 target list, the phase-kickback segment is
exactly one ControlledPhase of angle `(2^(2−c))·(π/4)` from each
counting qubit `c ∈ {0,1,2}` onto each marked target qubit (and onto no
unmarked one), with the exponent `2 − c` reversing the counting index. -/
theorem kickback_structure (ts : List Bool) (h : ts.length = 4) :
    (ship_indices ts).map kickback_gates = some (kickbackSpecOf ts) ∧
      Option.all (fun ships => (kickback_gates ships).all
        (goodKickbackGate ts)) (ship_indices ts) = true := by
  obtain ⟨a, b, c, d, rfl⟩ := list_len4 h
  cases a <;> cases b <;> cases c <;> cases d <;>
    exact ⟨by decide, by decide⟩

/-- Witness for C6 at the concrete input `[true, false, true, false]`. -/
theorem kickback_structure_witness :
    (ship_indices [true, false, true, false]).map kickback_gates =
        some (kickbackSpecOf [true, false, true, false]) ∧
      Option.all (fun ships => (kickback_gates ships).all
          (goodKickbackGate [true, false, true, false]))
        (ship_indices [true, false, true, false]) = true :=
  kickback_structure [true, false, true, false] (by decide)

end QB
